import Mathlib

/-!
# Lakebridge assessment-pipeline schema: formalisation

A shallow embedding of the repository's persisted schema (the DDL in
`src/unnamed/part_000`, three `CREATE TABLE` statements) together with a
model of the extraction-and-normalization pipeline that populates it
(Schema Normalizer, Incremental Loader, Run Ledger).  The pipeline itself
is not present in the repository sources, only its persisted schema is;
the pipeline definitions below are therefore modelled from the
specification and marked as such in their doc comments.
-/

namespace Lakebridge

/-! ## SQL DDL embedding (src/unnamed/part_000) -/

/-- The SQL column types occurring in the DDL. -/
inductive SqlType where
  | INTEGER
  | VARCHAR
  | TIMESTAMP
  | BIGINT
deriving DecidableEq

/-- Bit width of the fixed-width SQL integer types: `INTEGER` is 32-bit,
`BIGINT` is 64-bit; strings and timestamps have no fixed bit width. -/
def SqlType.widthBits : SqlType → Option Nat
  | .INTEGER => some 32
  | .BIGINT => some 64
  | .VARCHAR => none
  | .TIMESTAMP => none

/-- A column declaration: name, type, and whether a `NOT NULL` clause was
declared on it. -/
structure ColumnDef where
  name : String
  type : SqlType
  notNull : Bool
deriving DecidableEq

/-- Table-level constraints a `CREATE TABLE` statement could declare.  The
DDL of this repository declares none. -/
inductive TableConstraint where
  | primaryKey (cols : List String)
  | uniqueCols (cols : List String)
  | foreignKey (cols : List String) (refTable : String) (refCols : List String)
  | check (expr : String)
deriving DecidableEq

/-- A `CREATE TABLE` statement. -/
structure TableDef where
  name : String
  columns : List ColumnDef
  constraints : List TableConstraint
deriving DecidableEq

/-- Statement `CREATE TABLE inventory` exactly as in src/unnamed/part_000 lines 2-8:
five columns, no NOT NULL, no constraints. -/
def inventory : TableDef :=
  { name := "inventory"
    columns :=
      [⟨"db_id", .INTEGER, false⟩,
       ⟨"name", .VARCHAR, false⟩,
       ⟨"collation_name", .VARCHAR, false⟩,
       ⟨"create_date", .TIMESTAMP, false⟩,
       ⟨"extract_ts", .TIMESTAMP, false⟩]
    constraints := [] }

/-- Statement `CREATE TABLE usage` exactly as in src/unnamed/part_000 lines 10-18:
seven columns, the four counters as BIGINT, no NOT NULL, no constraints. -/
def usage : TableDef :=
  { name := "usage"
    columns :=
      [⟨"sql_handle", .VARCHAR, false⟩,
       ⟨"creation_time", .TIMESTAMP, false⟩,
       ⟨"last_execution_time", .TIMESTAMP, false⟩,
       ⟨"execution_count", .BIGINT, false⟩,
       ⟨"total_worker_time", .BIGINT, false⟩,
       ⟨"total_elapsed_time", .BIGINT, false⟩,
       ⟨"total_rows", .BIGINT, false⟩]
    constraints := [] }

/-- Statement `CREATE TABLE metadata` exactly as in src/unnamed/part_000 lines 20-24:
three columns, no NOT NULL, no constraints. -/
def metadata : TableDef :=
  { name := "metadata"
    columns :=
      [⟨"pipeline_name", .VARCHAR, false⟩,
       ⟨"execution_date", .TIMESTAMP, false⟩,
       ⟨"version", .VARCHAR, false⟩]
    constraints := [] }

/-- The whole DDL file: the three statements in file order. -/
def ddl : List TableDef := [inventory, usage, metadata]

/-! ### What the declared schema admits

To express that the store enforces nothing beyond column types, we give
the standard semantics of a table instance against a `TableDef`: cells
must match the column type (NULL matches any type of a nullable column),
and every declared constraint must hold.  Since the DDL declares no
constraints and no NOT NULL, any well-typed rows are admitted. -/

/-- A SQL value as stored in a cell. -/
inductive SqlValue where
  | null
  | intV (i : Int)
  | strV (s : String)
  | tsV (t : Nat)
deriving DecidableEq

/-- Type conformance of a value against a column type.  `null` conforms to
every type (nullability itself is checked by `cellValid`). -/
def valueMatchesType : SqlValue → SqlType → Bool
  | .null, _ => true
  | .intV _, .INTEGER => true
  | .intV _, .BIGINT => true
  | .strV _, .VARCHAR => true
  | .tsV _, .TIMESTAMP => true
  | _, _ => false

/-- A cell is valid when the value conforms to the column type and a
declared NOT NULL is respected. -/
def cellValid (c : ColumnDef) (v : SqlValue) : Bool :=
  valueMatchesType v c.type && (!c.notNull || !(v == SqlValue.null))

/-- A row (positional list of cells) is valid against a table definition. -/
def rowValid (t : TableDef) (row : List SqlValue) : Bool :=
  (row.length == t.columns.length) &&
  (List.zip t.columns row).all (fun p => cellValid p.1 p.2)

/-- Index of a named column in a table definition. -/
def colIndex (t : TableDef) (c : String) : Option Nat :=
  t.columns.findIdx? (fun col => col.name == c)

/-- Projection of a row onto a list of column names. -/
def keyOf (t : TableDef) (cols : List String) (row : List SqlValue) : List (Option SqlValue) :=
  cols.map (fun c => (colIndex t c).bind (fun i => row.get? i))

/-- All elements of a list distinct, decidably. -/
def allDistinct {α : Type} [DecidableEq α] (l : List α) : Bool :=
  l.dedup.length == l.length

/-- A projected key contains no NULL and no missing column. -/
def keyNoNulls (k : List (Option SqlValue)) : Bool :=
  k.all (fun v => !(v == some SqlValue.null) && !(v == none))

/-- Satisfaction of one table-level constraint by a table instance.
Foreign keys refer to other tables and checks to SQL expressions; the DDL
declares neither, so those cases are vacuous here. -/
def satisfiesConstraint (t : TableDef) (rows : List (List SqlValue)) :
    TableConstraint → Bool
  | .primaryKey cols =>
      allDistinct (rows.map (keyOf t cols)) && rows.all (fun r => keyNoNulls (keyOf t cols r))
  | .uniqueCols cols => allDistinct (rows.map (keyOf t cols))
  | .foreignKey _ _ _ => true
  | .check _ => true

/-- A table instance is valid when every row is well-typed and every
declared constraint holds. -/
def tableInstanceValid (t : TableDef) (rows : List (List SqlValue)) : Bool :=
  rows.all (rowValid t) && t.constraints.all (satisfiesConstraint t rows)

/-- C1: The persisted schema is exactly the three tables `inventory`,
`usage`, `metadata` with exactly the declared columns and types: inventory
(db_id INTEGER, name VARCHAR, collation_name VARCHAR, create_date
TIMESTAMP, extract_ts TIMESTAMP); usage (sql_handle VARCHAR,
creation_time TIMESTAMP, last_execution_time TIMESTAMP, plus the four
counters execution_count, total_worker_time, total_elapsed_time,
total_rows all BIGINT, i.e. 64-bit); metadata (pipeline_name VARCHAR,
execution_date TIMESTAMP, version VARCHAR). -/
theorem persisted_schema_exact :
    ddl.map TableDef.name = ["inventory", "usage", "metadata"] ∧
    inventory.columns.map (fun c => (c.name, c.type)) =
      [("db_id", SqlType.INTEGER), ("name", SqlType.VARCHAR),
       ("collation_name", SqlType.VARCHAR), ("create_date", SqlType.TIMESTAMP),
       ("extract_ts", SqlType.TIMESTAMP)] ∧
    usage.columns.map (fun c => (c.name, c.type)) =
      [("sql_handle", SqlType.VARCHAR), ("creation_time", SqlType.TIMESTAMP),
       ("last_execution_time", SqlType.TIMESTAMP),
       ("execution_count", SqlType.BIGINT), ("total_worker_time", SqlType.BIGINT),
       ("total_elapsed_time", SqlType.BIGINT), ("total_rows", SqlType.BIGINT)] ∧
    metadata.columns.map (fun c => (c.name, c.type)) =
      [("pipeline_name", SqlType.VARCHAR), ("execution_date", SqlType.TIMESTAMP),
       ("version", SqlType.VARCHAR)] ∧
    SqlType.BIGINT.widthBits = some 64 := by
  refine ⟨rfl, rfl, rfl, rfl, rfl⟩

/-- C10: In the declared schema every column of all three tables is
nullable (no NOT NULL anywhere) and no table declares a primary key,
uniqueness, or any other constraint; consequently the store admits
instances that violate the natural keys and non-nullness — witnessed by a
valid `inventory` instance holding two rows with the same natural key
(db_id, extract_ts) and a row of all NULLs, and a valid `usage` instance
holding two rows with the same (sql_handle, snapshot) key.  Every key,
monotonicity and append-only invariant can therefore only be maintained by
the pipeline's write path. -/
theorem schema_enforces_no_constraints :
    (ddl.all (fun t => t.constraints.isEmpty)) = true ∧
    (ddl.all (fun t => t.columns.all (fun c => !c.notNull))) = true ∧
    tableInstanceValid inventory
      [[SqlValue.intV 7, SqlValue.strV "db_a", SqlValue.null, SqlValue.tsV 100, SqlValue.tsV 500],
       [SqlValue.intV 7, SqlValue.strV "db_b", SqlValue.strV "latin1", SqlValue.tsV 200, SqlValue.tsV 500],
       [SqlValue.null, SqlValue.null, SqlValue.null, SqlValue.null, SqlValue.null]] = true ∧
    tableInstanceValid usage
      [[SqlValue.strV "h1", SqlValue.tsV 1, SqlValue.tsV 2, SqlValue.intV 10,
        SqlValue.intV 3, SqlValue.intV 4, SqlValue.intV 5],
       [SqlValue.strV "h1", SqlValue.tsV 1, SqlValue.tsV 2, SqlValue.intV 99,
        SqlValue.intV 3, SqlValue.intV 4, SqlValue.intV 5]] = true ∧
    tableInstanceValid metadata [[SqlValue.null, SqlValue.null, SqlValue.null]] = true := by
  refine ⟨rfl, rfl, by decide, by decide, by decide⟩

/-! ## Pipeline data model

The extraction-and-normalization pipeline that populates the schema is not
among the repository sources (only its persisted schema is), so the
definitions in this section are modelled from the specification (§3, §4). -/

/-- Modelled from the spec: the canonical representation of the optional
`collation_name` field.  A source without collation concepts yields an
explicit "unknown" sentinel, distinct from every known string (§4.1). -/
inductive Collation where
  | known (s : String)
  | unknown
deriving DecidableEq

/-- Modelled from the spec: the source-object part of an InventoryRecord
(§3), before it is stamped with an extraction snapshot time. -/
structure InventoryData where
  db_id : Int
  name : String
  collation_name : Collation
  create_date : Nat
deriving DecidableEq

/-- Modelled from the spec: the statement-statistics part of a UsageRecord
(§3), before it is stamped with an extraction snapshot time. -/
structure UsageData where
  sql_handle : String
  creation_time : Nat
  last_execution_time : Nat
  execution_count : Int
  total_worker_time : Int
  total_elapsed_time : Int
  total_rows : Int
deriving DecidableEq

/-- Modelled from the spec: a persisted `inventory` row — the extracted
data plus `extract_ts`, the snapshot time stamped by the pipeline run. -/
structure InventoryRow where
  data : InventoryData
  extract_ts : Nat
deriving DecidableEq

/-- Modelled from the spec: a persisted `usage` row — the extracted data
plus the extraction-snapshot time. -/
structure UsageRow where
  data : UsageData
  snapshot_ts : Nat
deriving DecidableEq

/-- Modelled from the spec: a PipelineRun, one row of the `metadata`
table (§3). -/
structure PipelineRun where
  pipeline_name : String
  execution_date : Nat
  version : String
deriving DecidableEq

/-- Modelled from the spec: the Run Ledger state machine states (§4.3). -/
inductive RunState where
  | PENDING
  | RUNNING
  | SUCCEEDED
  | FAILED
deriving DecidableEq

/-- Modelled from the spec: a Run Ledger entry, a PipelineRun together
with its current state. -/
structure LedgerEntry where
  run : PipelineRun
  state : RunState
deriving DecidableEq

/-- Modelled from the spec: the Persistence Sink's state — one instance
per declared table, plus the Run Ledger. -/
structure Store where
  inventory : List InventoryRow
  usage : List UsageRow
  ledger : List LedgerEntry
deriving DecidableEq

/-- Natural key of a persisted inventory row: (`db_id`, `extract_ts`). -/
def invKey (r : InventoryRow) : Int × Nat :=
  (r.data.db_id, r.extract_ts)

/-- Natural key of a persisted usage row: (`sql_handle`, snapshot). -/
def usgKey (r : UsageRow) : String × Nat :=
  (r.data.sql_handle, r.snapshot_ts)

/-! ## Schema Normalizer (spec §4.1) -/

/-- Modelled from the spec: a raw catalog row from a Source Connector —
every field is a possibly-missing string in the source dialect's shape. -/
structure RawInventoryRow where
  db_id : Option String
  name : Option String
  collation_name : Option String
  create_date : Option String
deriving DecidableEq

/-- Modelled from the spec: a raw query-statistics row from a Source
Connector. -/
structure RawUsageRow where
  sql_handle : Option String
  creation_time : Option String
  last_execution_time : Option String
  execution_count : Option String
  total_worker_time : Option String
  total_elapsed_time : Option String
  total_rows : Option String
deriving DecidableEq

/-- Modelled from the spec: a raw record is either a catalog row or a
statistics row. -/
inductive RawRecord where
  | inv (r : RawInventoryRow)
  | usg (r : RawUsageRow)
deriving DecidableEq

/-- Modelled from the spec: the closed set of supported source dialects
(§9: tagged variants, one per supported source kind). -/
inductive SourceKind where
  | mssql
  | synapse
deriving DecidableEq

/-- Modelled from the spec: a canonical record produced by the
Normalizer. -/
inductive CanonicalRecord where
  | inv (r : InventoryData)
  | usg (r : UsageData)
deriving DecidableEq

/-- Modelled from the spec: the typed rejection reasons of the Normalizer
(§4.1, §7 MalformedRecordError). -/
inductive RejectReason where
  | missingField (field : String)
  | malformedTimestamp (field : String)
  | malformedInteger (field : String)
deriving DecidableEq

/-- Value of a decimal digit character. -/
def charDigit (c : Char) : Option Nat :=
  if c.isDigit then some (c.toNat - 48) else none

/-- Parse a list of decimal digit characters, accumulating left to right;
any non-digit makes the whole parse fail. -/
def parseNatList : List Char → Nat → Option Nat
  | [], acc => some acc
  | c :: cs, acc =>
    match charDigit c with
    | none => none
    | some d => parseNatList cs (10 * acc + d)

/-- Modelled from the spec: parse a raw timestamp into the canonical time
representation (a count of canonical time units). -/
def parseTimestamp (s : String) : Option Nat :=
  match s.data with
  | [] => none
  | cs => parseNatList cs 0

/-- Modelled from the spec: parse a raw integer field (optional leading
minus sign, then decimal digits). -/
def parseInteger (s : String) : Option Int :=
  match s.data with
  | '-' :: cs => if cs.isEmpty then none else (parseNatList cs 0).map (fun n => -(n : Int))
  | [] => none
  | cs => (parseNatList cs 0).map (fun n => (n : Int))

/-- Modelled from the spec: normalization of one raw catalog row.  Each
required field must be present and parsable, yielding a typed rejection
otherwise; the optional `collation_name` maps to the explicit unknown
sentinel when missing. -/
def normalizeInv (r : RawInventoryRow) : Except RejectReason InventoryData :=
  match r.db_id with
  | none => .error (.missingField "db_id")
  | some idS =>
    match parseInteger idS with
    | none => .error (.malformedInteger "db_id")
    | some id =>
      match r.name with
      | none => .error (.missingField "name")
      | some nm =>
        match r.create_date with
        | none => .error (.missingField "create_date")
        | some cdS =>
          match parseTimestamp cdS with
          | none => .error (.malformedTimestamp "create_date")
          | some cd =>
            match r.collation_name with
            | some s => .ok ⟨id, nm, .known s, cd⟩
            | none => .ok ⟨id, nm, .unknown, cd⟩

/-- Modelled from the spec: normalization of one raw statistics row; all
seven fields are required. -/
def normalizeUsg (r : RawUsageRow) : Except RejectReason UsageData :=
  match r.sql_handle with
  | none => .error (.missingField "sql_handle")
  | some h =>
    match r.creation_time.bind parseTimestamp with
    | none => .error (.malformedTimestamp "creation_time")
    | some ct =>
      match r.last_execution_time.bind parseTimestamp with
      | none => .error (.malformedTimestamp "last_execution_time")
      | some le =>
        match r.execution_count.bind parseInteger with
        | none => .error (.malformedInteger "execution_count")
        | some ec =>
          match r.total_worker_time.bind parseInteger with
          | none => .error (.malformedInteger "total_worker_time")
          | some tw =>
            match r.total_elapsed_time.bind parseInteger with
            | none => .error (.malformedInteger "total_elapsed_time")
            | some te =>
              match r.total_rows.bind parseInteger with
              | none => .error (.malformedInteger "total_rows")
              | some tr => .ok ⟨h, ct, le, ec, tw, te, tr⟩

/-- Modelled from the spec: `normalize(raw_record, source_kind)` (§4.1).
A pure total mapping: exactly one canonical record on success, or a typed
rejection when a required field is missing or unparsable.  Both supported
dialects expose the same minimum fields, so they share the field mapping;
the tag selects the variant as in §9. -/
def normalize (raw : RawRecord) (kind : SourceKind) : Except RejectReason CanonicalRecord :=
  match kind, raw with
  | _, .inv r => (normalizeInv r).map CanonicalRecord.inv
  | _, .usg r => (normalizeUsg r).map CanonicalRecord.usg

/-! ## Incremental Loader (spec §4.2) -/

/-- Modelled from the spec: the within-batch natural key of a canonical
record.  Within one batch all records share the run's snapshot time, so
the key reduces to `db_id` for inventory and `sql_handle` for usage; the
sum keeps the two tables' key spaces disjoint. -/
def batchKey : CanonicalRecord → Sum Int String
  | .inv r => .inl r.db_id
  | .usg r => .inr r.sql_handle

/-- Keep-first deduplication, tracking the set of keys already seen:
returns the kept records in order and the number skipped. -/
def dedupFirstAux {α κ : Type} [DecidableEq κ] (key : α → κ) (seen : List κ) :
    List α → List α × Nat
  | [] => ([], 0)
  | x :: xs =>
    if key x ∈ seen then
      let p := dedupFirstAux key seen xs
      (p.1, p.2 + 1)
    else
      let p := dedupFirstAux key (key x :: seen) xs
      (x :: p.1, p.2)

/-- Modelled from the spec: within a single batch, keep the first
occurrence of each natural key and count the skipped later occurrences
(§4.2 deduplication). -/
def dedupFirst {α κ : Type} [DecidableEq κ] (key : α → κ) (xs : List α) : List α × Nat :=
  dedupFirstAux key [] xs

/-- Modelled from the spec: the Loader's result (§4.2). -/
structure LoadReport where
  rows_written : Nat
  rows_rejected : Nat
  duplicates_skipped : Nat
deriving DecidableEq

/-- Stamp normalized inventory data with the run's snapshot time. -/
def stampInv (d : InventoryData) (ts : Nat) : InventoryRow :=
  ⟨d, ts⟩

/-- Stamp normalized usage data with the run's snapshot time. -/
def stampUsg (d : UsageData) (ts : Nat) : UsageRow :=
  ⟨d, ts⟩

/-- Modelled from the spec: `load(batch, run)` (§4.2).  The batch arrives
as normalization results; rejected records are counted, surviving records
are deduplicated keep-first, stamped with the run's `execution_date`, and
appended (never updated in place) to their target tables.  The Loader
never fails the run: it always returns a `LoadReport`. -/
def load (batch : List (Except RejectReason CanonicalRecord)) (run : PipelineRun)
    (s : Store) : LoadReport × Store :=
  let oks := batch.filterMap Except.toOption
  let p := dedupFirst batchKey oks
  let invNew := p.1.filterMap (fun c =>
    match c with
    | .inv r => some (stampInv r run.execution_date)
    | .usg _ => none)
  let usgNew := p.1.filterMap (fun c =>
    match c with
    | .inv _ => none
    | .usg r => some (stampUsg r run.execution_date))
  (⟨p.1.length, batch.length - oks.length, p.2⟩,
   { s with inventory := s.inventory ++ invNew, usage := s.usage ++ usgNew })

/-! ## Persistence Sink and a full pipeline run (spec §4.2, §4.3, §6, §7) -/

/-- Modelled from the spec: whether the Sink's per-table transactional
batch write succeeds, one flag per written table. -/
structure SinkBehavior where
  inventoryWriteOk : Bool
  usageWriteOk : Bool
deriving DecidableEq

/-- Modelled from the spec: `insertBatch("inventory", rows)` with
transactional all-or-nothing semantics — either every row of the batch is
appended or none is and the write reports SinkWriteError (§6, §7). -/
def insertInventoryBatch (b : SinkBehavior) (rows : List InventoryRow) (s : Store) :
    Option Store :=
  if b.inventoryWriteOk then some { s with inventory := s.inventory ++ rows } else none

/-- Modelled from the spec: `insertBatch("usage", rows)`, transactional
all-or-nothing per table write. -/
def insertUsageBatch (b : SinkBehavior) (rows : List UsageRow) (s : Store) :
    Option Store :=
  if b.usageWriteOk then some { s with usage := s.usage ++ rows } else none

/-- Modelled from the spec: a CounterRegressionWarning (§7) — a usage
counter decreased versus the prior snapshot of the same handle; logged
and attributed to a plan-cache eviction (a new statement lifetime), never
an error.  The warning names which of the four counters decreased and
carries both values. -/
structure CounterRegressionWarning where
  sql_handle : String
  counter : String
  prev_count : Int
  new_count : Int
deriving DecidableEq

/-- Modelled from the spec: the latest prior persisted snapshot of a
given `sql_handle`, by snapshot time. -/
def latestSnapshot (handle : String) : List UsageRow → Option UsageRow
  | [] => none
  | r :: rs =>
      match latestSnapshot handle rs with
      | none => if r.data.sql_handle = handle then some r else none
      | some p =>
          if r.data.sql_handle = handle ∧ p.snapshot_ts ≤ r.snapshot_ts then some r
          else some p

/-- Modelled from the spec: one warning per usage counter that decreased
versus the prior snapshot — the spec's "a Usage counter" (§7) covers all
four accumulated counters of §3. -/
def counterRegressions (p : UsageRow) (d : UsageData) : List CounterRegressionWarning :=
  (if d.execution_count < p.data.execution_count then
    [⟨d.sql_handle, "execution_count", p.data.execution_count, d.execution_count⟩]
  else []) ++
  ((if d.total_worker_time < p.data.total_worker_time then
    [⟨d.sql_handle, "total_worker_time", p.data.total_worker_time, d.total_worker_time⟩]
  else []) ++
  ((if d.total_elapsed_time < p.data.total_elapsed_time then
    [⟨d.sql_handle, "total_elapsed_time", p.data.total_elapsed_time, d.total_elapsed_time⟩]
  else []) ++
  (if d.total_rows < p.data.total_rows then
    [⟨d.sql_handle, "total_rows", p.data.total_rows, d.total_rows⟩]
  else [])))

/-- Modelled from the spec: detect counter regressions of an incoming
batch against the prior persisted snapshots, over all four counters;
purely observational, the stored and incoming values are untouched
(§7, §9). -/
def detectRegressions (s : Store) : List UsageData → List CounterRegressionWarning
  | [] => []
  | d :: ds =>
      (match latestSnapshot d.sql_handle s.usage with
       | some p => counterRegressions p d
       | none => []) ++ detectRegressions s ds

/-- Modelled from the spec: the outcome of one pipeline run — final run
state, warnings logged, and the resulting Sink state. -/
structure RunResult where
  state : RunState
  warnings : List CounterRegressionWarning
  store : Store

/-- Modelled from the spec: one pipeline run against the Sink (§4.2, §4.3,
§8 scenarios).  Normalized batches are stamped with the run's
`execution_date` and written one transactional batch per target table,
inventory first; a failed table write persists none of that table's batch
and marks the run FAILED, leaving batches already committed to other
tables in place; counter regressions are logged as warnings and never
fail the run; the Run Ledger records the run with its final state. -/
def runPipeline (b : SinkBehavior) (run : PipelineRun)
    (invBatch : List InventoryData) (usgBatch : List UsageData) (s : Store) : RunResult :=
  let invRows := invBatch.map (fun d => stampInv d run.execution_date)
  match insertInventoryBatch b invRows s with
  | none =>
      { state := .FAILED, warnings := [],
        store := { s with ledger := s.ledger ++ [⟨run, .FAILED⟩] } }
  | some s1 =>
      let ws := detectRegressions s usgBatch
      let usgRows := usgBatch.map (fun d => stampUsg d run.execution_date)
      match insertUsageBatch b usgRows s1 with
      | none =>
          { state := .FAILED, warnings := ws,
            store := { s1 with ledger := s1.ledger ++ [⟨run, .FAILED⟩] } }
      | some s2 =>
          { state := .SUCCEEDED, warnings := ws,
            store := { s2 with ledger := s2.ledger ++ [⟨run, .SUCCEEDED⟩] } }

/-! ## Run Ledger state machine (spec §4.3, §5) -/

/-- Modelled from the spec: the allowed state transitions,
`PENDING → RUNNING → SUCCEEDED or FAILED` (§4.3). -/
def stepAllowed : RunState → RunState → Bool
  | .PENDING, .RUNNING => true
  | .RUNNING, .SUCCEEDED => true
  | .RUNNING, .FAILED => true
  | _, _ => false

/-- Number of RUNNING ledger entries for a pipeline name. -/
def runningCount (name : String) : List LedgerEntry → Nat
  | [] => 0
  | e :: es =>
      (if e.run.pipeline_name = name ∧ e.state = RunState.RUNNING then 1 else 0) +
        runningCount name es

/-- Modelled from the spec: the events the Run Ledger accepts — creating
a provisional PENDING row, starting extraction, finishing a run (§4.3). -/
inductive LedgerEvent where
  | create (run : PipelineRun)
  | start (i : Nat)
  | finish (i : Nat) (ok : Bool)

/-- The final state a finishing run moves to. -/
def finalState (ok : Bool) : RunState :=
  if ok then RunState.SUCCEEDED else RunState.FAILED

/-- Replace the state of the ledger entry at an index (identity when the
index is out of range). -/
def setRunState (l : List LedgerEntry) (i : Nat) (st : RunState) : List LedgerEntry :=
  match l, i with
  | [], _ => []
  | e :: es, 0 => ⟨e.run, st⟩ :: es
  | e :: es, n + 1 => e :: setRunState es n st

/-- Modelled from the spec: the Run Ledger's reaction to one event.
`create` appends a PENDING row; `start` moves a PENDING row to RUNNING
only when no run of the same `pipeline_name` is RUNNING (§5: a RUNNING
row blocks a new run of the same name); `finish` moves a RUNNING row to
SUCCEEDED or FAILED.  Anything else is refused. -/
def applyEvent (l : List LedgerEntry) : LedgerEvent → Option (List LedgerEntry)
  | .create run => some (l ++ [⟨run, .PENDING⟩])
  | .start i =>
      match l.get? i with
      | none => none
      | some e =>
          if e.state = RunState.PENDING ∧ runningCount e.run.pipeline_name l = 0 then
            some (setRunState l i RunState.RUNNING)
          else none
  | .finish i ok =>
      match l.get? i with
      | none => none
      | some e =>
          if e.state = RunState.RUNNING then
            some (setRunState l i (finalState ok))
          else none

/-- Fold a list of events over the ledger, refusing the whole sequence as
soon as one event is refused. -/
def applyEvents (l : List LedgerEntry) : List LedgerEvent → Option (List LedgerEntry)
  | [] => some l
  | ev :: evs =>
      match applyEvent l ev with
      | none => none
      | some l2 => applyEvents l2 evs

/-- At most one RUNNING entry per pipeline name. -/
def atMostOneRunning (l : List LedgerEntry) : Prop :=
  ∀ name, runningCount name l ≤ 1

/-- A single ledger step either appends a fresh PENDING row or changes
exactly one row's state along an allowed transition, keeping its run. -/
def ValidStep (l l2 : List LedgerEntry) : Prop :=
  (∃ run, l2 = l ++ [⟨run, RunState.PENDING⟩]) ∨
  (∃ i e st, l.get? i = some e ∧ stepAllowed e.state st = true ∧ l2 = setRunState l i st)

/-- Modelled from the spec: `extract_ts` monotonically non-decreasing for
a given `db_id` across the persisted inventory rows in write order (§3). -/
def invMonotone (rows : List InventoryRow) : Prop :=
  rows.Pairwise (fun a b => a.data.db_id = b.data.db_id → a.extract_ts ≤ b.extract_ts)

/-! ## Helper lemmas -/

theorem dedupFirstAux_length {α κ : Type} [DecidableEq κ] (key : α → κ) :
    ∀ (xs : List α) (seen : List κ),
      (dedupFirstAux key seen xs).1.length + (dedupFirstAux key seen xs).2 = xs.length := by
  intro xs
  induction xs with
  | nil => intro seen; simp [dedupFirstAux]
  | cons x xs ih =>
      intro seen
      by_cases h : key x ∈ seen
      · have := ih seen
        simp only [dedupFirstAux, if_pos h, List.length_cons]
        omega
      · have := ih (key x :: seen)
        simp only [dedupFirstAux, if_neg h, List.length_cons]
        omega

theorem dedupFirstAux_sublist {α κ : Type} [DecidableEq κ] (key : α → κ) :
    ∀ (xs : List α) (seen : List κ), (dedupFirstAux key seen xs).1.Sublist xs := by
  intro xs
  induction xs with
  | nil => intro seen; simp [dedupFirstAux]
  | cons x xs ih =>
      intro seen
      by_cases h : key x ∈ seen
      · simp only [dedupFirstAux, if_pos h]
        exact (ih seen).trans (List.sublist_cons_self x xs)
      · simp only [dedupFirstAux, if_neg h]
        exact (ih (key x :: seen)).cons₂ x

theorem dedupFirstAux_keys {α κ : Type} [DecidableEq κ] (key : α → κ) :
    ∀ (xs : List α) (seen : List κ),
      ((dedupFirstAux key seen xs).1.map key).Nodup ∧
        ∀ x ∈ (dedupFirstAux key seen xs).1, key x ∉ seen := by
  intro xs
  induction xs with
  | nil => intro seen; simp [dedupFirstAux]
  | cons x xs ih =>
      intro seen
      by_cases h : key x ∈ seen
      · simpa only [dedupFirstAux, if_pos h] using ih seen
      · have ih2 := ih (key x :: seen)
        simp only [dedupFirstAux, if_neg h, List.map_cons, List.nodup_cons, List.mem_cons]
        refine ⟨⟨?_, ih2.1⟩, ?_⟩
        · intro hx
          obtain ⟨y, hy, hyk⟩ := List.mem_map.mp hx
          have := ih2.2 y hy
          simp only [List.mem_cons] at this
          exact this (Or.inl hyk)
        · intro y hy
          rcases hy with rfl | hy
          · exact h
          · have := ih2.2 y hy
            simp only [List.mem_cons] at this
            exact fun hs => this (Or.inr hs)

theorem dedupFirstAux_keeps_first {α κ : Type} [DecidableEq κ] (key : α → κ) :
    ∀ (xs : List α) (seen : List κ) (x : α),
      xs.find? (fun c => decide (key c = key x)) = some x → key x ∉ seen →
      x ∈ (dedupFirstAux key seen xs).1 := by
  intro xs
  induction xs with
  | nil => intro seen x hfind _; simp at hfind
  | cons y ys ih =>
      intro seen x hfind hseen
      by_cases hk : key y = key x
      · rw [List.find?_cons_of_pos _ (by simpa using hk)] at hfind
        have hyx : y = x := by simpa using hfind
        subst hyx
        have hy : key y ∉ seen := hk ▸ hseen
        simp only [dedupFirstAux, if_neg hy]
        exact List.mem_cons_self y _
      · rw [List.find?_cons_of_neg _ (by simpa using hk)] at hfind
        by_cases hs : key y ∈ seen
        · simp only [dedupFirstAux, if_pos hs]
          exact ih seen x hfind hseen
        · simp only [dedupFirstAux, if_neg hs]
          refine List.mem_cons.mpr (Or.inr ?_)
          refine ih (key y :: seen) x hfind ?_
          simp only [List.mem_cons]
          rintro (he | hmem)
          · exact hk he.symm
          · exact hseen hmem

theorem runningCount_append (name : String) (l1 l2 : List LedgerEntry) :
    runningCount name (l1 ++ l2) = runningCount name l1 + runningCount name l2 := by
  induction l1 with
  | nil => simp [runningCount]
  | cons e es ih =>
      simp only [List.cons_append, runningCount, List.append_eq] at ih ⊢
      omega

theorem runningCount_setRunState (name : String) :
    ∀ (l : List LedgerEntry) (i : Nat) (e : LedgerEntry) (st : RunState),
      l.get? i = some e →
      runningCount name (setRunState l i st) +
          (if e.run.pipeline_name = name ∧ e.state = RunState.RUNNING then 1 else 0) =
        runningCount name l +
          (if e.run.pipeline_name = name ∧ st = RunState.RUNNING then 1 else 0) := by
  intro l
  induction l with
  | nil => intro i e st h; simp at h
  | cons x xs ih =>
      intro i e st h
      cases i with
      | zero =>
          have hx : x = e := by simpa using h
          subst hx
          simp only [setRunState, runningCount]
          split_ifs <;> omega
      | succ n =>
          have h2 : xs.get? n = some e := by simpa using h
          have := ih n e st h2
          simp only [setRunState, runningCount]
          omega

theorem latestSnapshot_mem (handle : String) :
    ∀ (rows : List UsageRow) (p : UsageRow),
      latestSnapshot handle rows = some p → p ∈ rows := by
  intro rows
  induction rows with
  | nil => intro p h; simp [latestSnapshot] at h
  | cons r rs ih =>
      intro p h
      rw [latestSnapshot] at h
      split at h
      · split_ifs at h with hm
        have : r = p := by simpa using h
        exact this ▸ List.mem_cons_self r rs
      · rename_i q hrec
        split_ifs at h with hc
        · have : r = p := by simpa using h
          exact this ▸ List.mem_cons_self r rs
        · have : q = p := by simpa using h
          exact List.mem_cons.mpr (Or.inr (this ▸ ih q hrec))

theorem applyEvent_atMostOne {l l2 : List LedgerEntry} {ev : LedgerEvent}
    (hinv : atMostOneRunning l) (h : applyEvent l ev = some l2) : atMostOneRunning l2 := by
  cases ev with
  | create run =>
      have h2 : l ++ [⟨run, RunState.PENDING⟩] = l2 := by simpa [applyEvent] using h
      intro name
      rw [← h2, runningCount_append]
      have hz : runningCount name [⟨run, RunState.PENDING⟩] = 0 := by
        simp [runningCount]
      have := hinv name
      omega
  | start i =>
      rw [applyEvent] at h
      split at h
      · exact absurd h (by simp)
      · rename_i e hget
        split_ifs at h with hc
        have h2 : setRunState l i RunState.RUNNING = l2 := by simpa using h
        intro name
        have hrc := runningCount_setRunState name l i e RunState.RUNNING hget
        have hz : (if e.run.pipeline_name = name ∧ e.state = RunState.RUNNING then 1 else 0) = 0 := by
          split_ifs with hx
          · exact absurd hx.2 (by rw [hc.1]; simp)
          · rfl
        by_cases hn : e.run.pipeline_name = name
        · have h0 : runningCount name l = 0 := hn ▸ hc.2
          have hb : (if e.run.pipeline_name = name ∧ RunState.RUNNING = RunState.RUNNING
              then 1 else 0) ≤ 1 := by
            split_ifs <;> omega
          rw [← h2]
          omega
        · have h1 : (if e.run.pipeline_name = name ∧ RunState.RUNNING = RunState.RUNNING
              then 1 else 0) = 0 := by
            simp [hn]
          have hl := hinv name
          rw [← h2]
          omega
  | finish i ok =>
      rw [applyEvent] at h
      split at h
      · exact absurd h (by simp)
      · rename_i e hget
        split_ifs at h with hc
        have h2 : setRunState l i (finalState ok) = l2 := by simpa using h
        intro name
        have hrc := runningCount_setRunState name l i e (finalState ok) hget
        have hz : (if e.run.pipeline_name = name ∧ finalState ok = RunState.RUNNING
            then 1 else 0) = 0 := by
          cases ok <;> simp [finalState]
        have hl := hinv name
        rw [← h2]
        omega

theorem applyEvents_atMostOne :
    ∀ (evs : List LedgerEvent) (l l2 : List LedgerEntry),
      atMostOneRunning l → applyEvents l evs = some l2 → atMostOneRunning l2 := by
  intro evs
  induction evs with
  | nil =>
      intro l l2 hinv h
      have : l = l2 := by simpa [applyEvents] using h
      exact this ▸ hinv
  | cons ev evs ih =>
      intro l l2 hinv h
      rw [applyEvents] at h
      split at h
      · exact absurd h (by simp)
      · rename_i lmid hmid
        exact ih lmid l2 (applyEvent_atMostOne hinv hmid) h

theorem applyEvent_validStep {l l2 : List LedgerEntry} {ev : LedgerEvent}
    (h : applyEvent l ev = some l2) : ValidStep l l2 := by
  cases ev with
  | create run =>
      left
      exact ⟨run, by simpa [applyEvent] using h.symm⟩
  | start i =>
      rw [applyEvent] at h
      split at h
      · exact absurd h (by simp)
      · rename_i e hget
        split_ifs at h with hc
        right
        refine ⟨i, e, RunState.RUNNING, hget, ?_, by simpa using h.symm⟩
        rw [hc.1]
        rfl
  | finish i ok =>
      rw [applyEvent] at h
      split at h
      · exact absurd h (by simp)
      · rename_i e hget
        split_ifs at h with hc
        right
        refine ⟨i, e, finalState ok, hget, ?_, by simpa using h.symm⟩
        rw [hc]
        cases ok <;> rfl

theorem invMonotone_append_stamped (rows : List InventoryRow) (ds : List InventoryData)
    (t : Nat) (hm : invMonotone rows) (hle : ∀ r ∈ rows, r.extract_ts ≤ t) :
    invMonotone (rows ++ ds.map (fun d => stampInv d t)) := by
  rw [invMonotone, List.pairwise_append]
  refine ⟨hm, ?_, ?_⟩
  · induction ds with
    | nil => simp
    | cons d ds ih =>
        simp only [List.map_cons, List.pairwise_cons]
        refine ⟨?_, ih⟩
        intro b hb _
        obtain ⟨d2, _, rfl⟩ := List.mem_map.mp hb
        exact le_refl t
  · intro a ha b hb
    obtain ⟨d2, _, rfl⟩ := List.mem_map.mp hb
    intro _
    exact hle a ha

/-! ## Claims -/

/-- C6: For every raw record and source kind, `normalize` returns exactly
one canonical record or a typed rejection (never both, never neither);
it is a pure total Lean function, hence side-effect free; a missing
optional `collation_name` maps to the explicit unknown sentinel, which is
distinct from every known string (in particular from the empty string);
and an unparsable required timestamp yields a typed rejection. -/
theorem normalize_exactly_one_or_typed_rejection :
    (∀ (raw : RawRecord) (kind : SourceKind),
      (∃ c, normalize raw kind = .ok c) ∨ (∃ e, normalize raw kind = .error e)) ∧
    (∀ (raw : RawRecord) (kind : SourceKind) (c : CanonicalRecord) (e : RejectReason),
      ¬(normalize raw kind = .ok c ∧ normalize raw kind = .error e)) ∧
    (∀ (r : RawInventoryRow) (kind : SourceKind) (d : InventoryData),
      r.collation_name = none → normalize (.inv r) kind = .ok (.inv d) →
      d.collation_name = Collation.unknown) ∧
    (∀ s : String, Collation.unknown ≠ Collation.known s) ∧
    (∀ (r : RawInventoryRow) (kind : SourceKind) (s : String),
      r.create_date = some s → parseTimestamp s = none →
      ∃ e, normalize (.inv r) kind = .error e) := by
  refine ⟨?_, ?_, ?_, ?_, ?_⟩
  · intro raw kind
    cases h : normalize raw kind with
    | error e => exact Or.inr ⟨e, rfl⟩
    | ok c => exact Or.inl ⟨c, rfl⟩
  · rintro raw kind c e ⟨h1, h2⟩
    rw [h1] at h2
    cases h2
  · intro r kind d hc hn
    cases kind <;>
    · simp only [normalize] at hn
      cases hni : normalizeInv r with
      | error e => rw [hni] at hn; cases hn
      | ok d0 =>
          rw [hni] at hn
          obtain rfl : d0 = d := by
            simpa [Except.map] using hn
          rw [normalizeInv] at hni
          repeat' split at hni
          all_goals try simp_all
          all_goals (subst hni; rfl)
  · intro s h
    cases h
  · intro r kind s hcd hts
    cases kind <;>
    · simp only [normalize]
      cases hni : normalizeInv r with
      | error e => exact ⟨e, rfl⟩
      | ok d =>
          exfalso
          rw [normalizeInv] at hni
          repeat' split at hni
          all_goals simp_all

/-- Witness for C6 at concrete inputs: a raw row with missing collation
normalizes to the unknown sentinel, and a raw row with a malformed
`create_date` is rejected with a typed reason. -/
theorem normalize_exactly_one_or_typed_rejection_witness :
    InventoryData.collation_name ⟨7, "db", Collation.unknown, 12⟩ = Collation.unknown ∧
    (∃ e, normalize (.inv ⟨some "7", some "db", none, some "not_a_ts"⟩) .mssql = .error e) := by
  constructor
  · exact normalize_exactly_one_or_typed_rejection.2.2.1
      ⟨some "7", some "db", none, some "12"⟩ .mssql ⟨7, "db", Collation.unknown, 12⟩
      rfl rfl
  · exact normalize_exactly_one_or_typed_rejection.2.2.2.2
      ⟨some "7", some "db", none, some "not_a_ts"⟩ .mssql "not_a_ts" rfl (by decide)

/-- C7: For every batch, `load` deduplicates by natural key keeping the
first occurrence: the report's `duplicates_skipped` counts exactly the
skipped later occurrences, every surviving record is either written or
counted as a skipped duplicate (the Loader never fails the run), the
first occurrence of each key is kept, the kept records carry pairwise
distinct keys (so every later occurrence is skipped), and the kept
records are a subsequence of the batch. -/
theorem load_keeps_first_counts_duplicates :
    ∀ (batch : List (Except RejectReason CanonicalRecord)) (run : PipelineRun) (s : Store),
      (load batch run s).1.duplicates_skipped =
          (dedupFirst batchKey (batch.filterMap Except.toOption)).2 ∧
      (load batch run s).1.rows_written =
          (dedupFirst batchKey (batch.filterMap Except.toOption)).1.length ∧
      (load batch run s).1.rows_written + (load batch run s).1.duplicates_skipped =
          (batch.filterMap Except.toOption).length ∧
      (∀ x, (batch.filterMap Except.toOption).find?
              (fun c => decide (batchKey c = batchKey x)) = some x →
          x ∈ (dedupFirst batchKey (batch.filterMap Except.toOption)).1) ∧
      ((dedupFirst batchKey (batch.filterMap Except.toOption)).1.map batchKey).Nodup ∧
      (dedupFirst batchKey (batch.filterMap Except.toOption)).1.Sublist
          (batch.filterMap Except.toOption) := by
  intro batch run s
  refine ⟨rfl, rfl, ?_, ?_, ?_, ?_⟩
  · exact dedupFirstAux_length batchKey (batch.filterMap Except.toOption) []
  · intro x hf
    exact dedupFirstAux_keeps_first batchKey (batch.filterMap Except.toOption) [] x hf
      (by simp)
  · exact (dedupFirstAux_keys batchKey (batch.filterMap Except.toOption) []).1
  · exact dedupFirstAux_sublist batchKey (batch.filterMap Except.toOption) []

/-- Witness for C7 at a concrete batch in which the natural key `db_id = 1`
occurs twice: one duplicate is counted and the first occurrence is kept. -/
theorem load_keeps_first_counts_duplicates_witness :
    (load [Except.ok (CanonicalRecord.inv ⟨1, "a", Collation.unknown, 0⟩),
           Except.ok (CanonicalRecord.inv ⟨1, "b", Collation.unknown, 9⟩),
           Except.error (RejectReason.missingField "db_id")]
        ⟨"profiler", 5, "v1"⟩ ⟨[], [], []⟩).1.duplicates_skipped =
      (dedupFirst batchKey
        ([Except.ok (CanonicalRecord.inv ⟨1, "a", Collation.unknown, 0⟩),
          Except.ok (CanonicalRecord.inv ⟨1, "b", Collation.unknown, 9⟩),
          Except.error (RejectReason.missingField "db_id")].filterMap Except.toOption)).2 ∧
    CanonicalRecord.inv ⟨1, "a", Collation.unknown, 0⟩ ∈
      (dedupFirst batchKey
        ([Except.ok (CanonicalRecord.inv ⟨1, "a", Collation.unknown, 0⟩),
          Except.ok (CanonicalRecord.inv ⟨1, "b", Collation.unknown, 9⟩),
          Except.error (RejectReason.missingField "db_id")].filterMap Except.toOption)).1 := by
  constructor
  · exact (load_keeps_first_counts_duplicates _ ⟨"profiler", 5, "v1"⟩ ⟨[], [], []⟩).1
  · exact (load_keeps_first_counts_duplicates _ ⟨"profiler", 5, "v1"⟩ ⟨[], [], []⟩).2.2.2.1
      (CanonicalRecord.inv ⟨1, "a", Collation.unknown, 0⟩) (by decide)

/-- C3: Every PipelineRun is in exactly one of the four states PENDING,
RUNNING, SUCCEEDED, FAILED (the state type is exactly these four, pairwise
distinct); every accepted Run Ledger event either creates a run in
PENDING or moves one run along an allowed edge of
PENDING → RUNNING → SUCCEEDED or FAILED; and along every accepted event
sequence from the empty ledger, at most one RUNNING entry per
pipeline_name ever exists. -/
theorem run_ledger_state_machine :
    (∀ s : RunState, s = RunState.PENDING ∨ s = RunState.RUNNING ∨
        s = RunState.SUCCEEDED ∨ s = RunState.FAILED) ∧
    ((RunState.PENDING ≠ RunState.RUNNING ∧ RunState.PENDING ≠ RunState.SUCCEEDED ∧
        RunState.PENDING ≠ RunState.FAILED) ∧ RunState.RUNNING ≠ RunState.SUCCEEDED ∧
        RunState.RUNNING ≠ RunState.FAILED ∧ RunState.SUCCEEDED ≠ RunState.FAILED) ∧
    (∀ (l l2 : List LedgerEntry) (ev : LedgerEvent),
        applyEvent l ev = some l2 → ValidStep l l2) ∧
    (∀ (evs : List LedgerEvent) (l : List LedgerEntry),
        applyEvents [] evs = some l → atMostOneRunning l) := by
  refine ⟨?_, ?_, ?_, ?_⟩
  · intro s
    cases s
    · exact Or.inl rfl
    · exact Or.inr (Or.inl rfl)
    · exact Or.inr (Or.inr (Or.inl rfl))
    · exact Or.inr (Or.inr (Or.inr rfl))
  · refine ⟨⟨?_, ?_, ?_⟩, ?_, ?_, ?_⟩ <;> intro h <;> cases h
  · intro l l2 ev h
    exact applyEvent_validStep h
  · intro evs l h
    refine applyEvents_atMostOne evs [] l ?_ h
    intro name
    simp [runningCount]

/-- Witness for C3 at a concrete event sequence: creating, starting and
finishing one run is accepted, each step is a valid transition, and the
resulting ledger has at most one RUNNING entry per name. -/
theorem run_ledger_state_machine_witness :
    ValidStep [] [⟨⟨"profiler", 1, "v1"⟩, RunState.PENDING⟩] ∧
    atMostOneRunning [⟨⟨"profiler", 1, "v1"⟩, RunState.SUCCEEDED⟩] := by
  constructor
  · exact run_ledger_state_machine.2.2.1 [] [⟨⟨"profiler", 1, "v1"⟩, RunState.PENDING⟩]
      (.create ⟨"profiler", 1, "v1"⟩) rfl
  · exact run_ledger_state_machine.2.2.2
      [.create ⟨"profiler", 1, "v1"⟩, .start 0, .finish 0 true]
      [⟨⟨"profiler", 1, "v1"⟩, RunState.SUCCEEDED⟩] (by decide)

/-- C2: Every usage row persisted by a successful run carries the run's
`execution_date` as its snapshot time (newly persisted rows are exactly
the batch stamped with that date, and any result row not previously
present has that snapshot time); the run is recorded in the ledger; when
ledger runs carry pairwise distinct execution dates, a row's snapshot
time is consistent with exactly one of them; and two snapshots of the
same `sql_handle` taken at different times are distinguishable rows. -/
theorem usage_rows_attributable_to_one_run :
    ∀ (b : SinkBehavior) (run : PipelineRun) (invB : List InventoryData)
      (usgB : List UsageData) (s : Store),
      b.inventoryWriteOk = true → b.usageWriteOk = true →
      ((runPipeline b run invB usgB s).store.usage =
          s.usage ++ usgB.map (fun d => stampUsg d run.execution_date)) ∧
      (∀ u ∈ (runPipeline b run invB usgB s).store.usage,
          u ∉ s.usage → u.snapshot_ts = run.execution_date) ∧
      ((runPipeline b run invB usgB s).store.ledger =
          s.ledger ++ [⟨run, RunState.SUCCEEDED⟩]) ∧
      (∀ (l : List LedgerEntry),
          (l.map (fun e => e.run.execution_date)).Nodup →
          ∀ e1 ∈ l, ∀ e2 ∈ l,
            e1.run.execution_date = e2.run.execution_date → e1 = e2) ∧
      (∀ (d1 d2 : UsageData) (t1 t2 : Nat),
          t1 ≠ t2 → stampUsg d1 t1 ≠ stampUsg d2 t2) := by
  intro b run invB usgB s hbi hbu
  obtain ⟨bi, bu⟩ := b
  simp only at hbi hbu
  subst hbi hbu
  refine ⟨?_, ?_, ?_, ?_, ?_⟩
  · simp [runPipeline, insertInventoryBatch, insertUsageBatch]
  · intro u hu hnot
    simp only [runPipeline, insertInventoryBatch, insertUsageBatch, if_pos] at hu
    simp only [List.mem_append] at hu
    rcases hu with h | h
    · exact absurd h hnot
    · obtain ⟨d, _, rfl⟩ := List.mem_map.mp h
      rfl
  · simp [runPipeline, insertInventoryBatch, insertUsageBatch]
  · intro l hnd e1 h1 e2 h2 hdate
    exact List.inj_on_of_nodup_map hnd h1 h2 hdate
  · intro d1 d2 t1 t2 hne heq
    exact hne (congrArg UsageRow.snapshot_ts heq)

/-- Witness for C2 at a concrete run: the usage rows written by the run
all carry its execution date 5 as snapshot time. -/
theorem usage_rows_attributable_to_one_run_witness :
    (runPipeline ⟨true, true⟩ ⟨"profiler", 5, "v1"⟩ []
        [⟨"h1", 1, 2, 10, 3, 4, 5⟩] ⟨[], [], []⟩).store.usage =
      [] ++ [⟨"h1", 1, 2, 10, 3, 4, 5⟩].map (fun d => stampUsg d 5) ∧
    stampUsg ⟨"h1", 1, 2, 10, 3, 4, 5⟩ 5 ≠ stampUsg ⟨"h1", 1, 2, 10, 3, 4, 5⟩ 6 := by
  constructor
  · exact (usage_rows_attributable_to_one_run ⟨true, true⟩ ⟨"profiler", 5, "v1"⟩ []
      [⟨"h1", 1, 2, 10, 3, 4, 5⟩] ⟨[], [], []⟩ rfl rfl).1
  · exact (usage_rows_attributable_to_one_run ⟨true, true⟩ ⟨"profiler", 5, "v1"⟩ []
      [⟨"h1", 1, 2, 10, 3, 4, 5⟩] ⟨[], [], []⟩ rfl rfl).2.2.2.2
      ⟨"h1", 1, 2, 10, 3, 4, 5⟩ ⟨"h1", 1, 2, 10, 3, 4, 5⟩ 5 6 (by decide)

/-- C4: For every run that ends SUCCEEDED, the inventory table after the
run is the prior inventory with the run's stamped batch appended, so
every previously persisted inventory row is still present (append-only:
no update, delete or mutation of existing rows). -/
theorem inventory_append_only :
    ∀ (b : SinkBehavior) (run : PipelineRun) (invB : List InventoryData)
      (usgB : List UsageData) (s : Store),
      (runPipeline b run invB usgB s).state = RunState.SUCCEEDED →
      ((runPipeline b run invB usgB s).store.inventory =
          s.inventory ++ invB.map (fun d => stampInv d run.execution_date)) ∧
      (∀ r ∈ s.inventory, r ∈ (runPipeline b run invB usgB s).store.inventory) := by
  intro b run invB usgB s hs
  obtain ⟨bi, bu⟩ := b
  cases bi <;> cases bu <;>
    simp only [runPipeline, insertInventoryBatch, insertUsageBatch,
      Bool.false_eq_true, if_false, if_true, reduceCtorEq] at hs ⊢
  refine ⟨trivial, ?_⟩
  intro r hr
  exact List.mem_append_left _ hr

/-- Witness for C4 at a concrete successful run over a store that already
holds one inventory row: the prior row is still present afterwards. -/
theorem inventory_append_only_witness :
    stampInv ⟨1, "a", Collation.unknown, 0⟩ 3 ∈
      (runPipeline ⟨true, true⟩ ⟨"profiler", 5, "v1"⟩ [⟨2, "b", Collation.known "c", 1⟩] []
        ⟨[stampInv ⟨1, "a", Collation.unknown, 0⟩ 3], [], []⟩).store.inventory := by
  exact (inventory_append_only ⟨true, true⟩ ⟨"profiler", 5, "v1"⟩
      [⟨2, "b", Collation.known "c", 1⟩] []
      ⟨[stampInv ⟨1, "a", Collation.unknown, 0⟩ 3], [], []⟩ rfl).2
    (stampInv ⟨1, "a", Collation.unknown, 0⟩ 3) (by simp)

/-- C5: When the persisted inventory is monotone per db_id and the run's
execution date is not earlier than any persisted extract_ts (clocks move
forward across successive runs), the inventory after the run is still
monotone per db_id: for each db_id the extract_ts values are
non-decreasing in write order.  Repeated extraction of the same object
appends a new row with natural key (db_id, run.execution_date) and every
pre-existing row is still present (history is never overwritten). -/
theorem extract_ts_monotone_per_db_id :
    ∀ (b : SinkBehavior) (run : PipelineRun) (invB : List InventoryData)
      (usgB : List UsageData) (s : Store),
      invMonotone s.inventory →
      (∀ r ∈ s.inventory, r.extract_ts ≤ run.execution_date) →
      invMonotone (runPipeline b run invB usgB s).store.inventory ∧
      (∀ r ∈ s.inventory, r ∈ (runPipeline b run invB usgB s).store.inventory) ∧
      (b.inventoryWriteOk = true →
        (runPipeline b run invB usgB s).store.inventory =
          s.inventory ++ invB.map (fun d => stampInv d run.execution_date)) ∧
      (∀ d : InventoryData,
        invKey (stampInv d run.execution_date) = (d.db_id, run.execution_date)) := by
  intro b run invB usgB s hm hle
  obtain ⟨bi, bu⟩ := b
  cases bi <;> cases bu
  case false.false =>
    exact ⟨hm, fun r hr => hr, fun h => absurd h (by simp), fun d => rfl⟩
  case false.true =>
    exact ⟨hm, fun r hr => hr, fun h => absurd h (by simp), fun d => rfl⟩
  case true.false =>
    exact ⟨invMonotone_append_stamped s.inventory invB run.execution_date hm hle,
      fun r hr => List.mem_append_left _ hr, fun _ => rfl, fun d => rfl⟩
  case true.true =>
    exact ⟨invMonotone_append_stamped s.inventory invB run.execution_date hm hle,
      fun r hr => List.mem_append_left _ hr, fun _ => rfl, fun d => rfl⟩

/-- Witness for C5 at a concrete store holding one row for db_id 1 at
extract_ts 3, re-extracted by a run with execution date 5. -/
theorem extract_ts_monotone_per_db_id_witness :
    invMonotone (runPipeline ⟨true, true⟩ ⟨"profiler", 5, "v1"⟩
        [⟨1, "a", Collation.unknown, 0⟩] []
        ⟨[stampInv ⟨1, "a", Collation.unknown, 0⟩ 3], [], []⟩).store.inventory ∧
    invKey (stampInv ⟨1, "a", Collation.unknown, 0⟩ 5) = (1, 5) := by
  constructor
  · exact (extract_ts_monotone_per_db_id ⟨true, true⟩ ⟨"profiler", 5, "v1"⟩
      [⟨1, "a", Collation.unknown, 0⟩] []
      ⟨[stampInv ⟨1, "a", Collation.unknown, 0⟩ 3], [], []⟩
      (by simp [invMonotone]) (by simp [stampInv])).1
  · exact (extract_ts_monotone_per_db_id ⟨true, true⟩ ⟨"profiler", 5, "v1"⟩
      [⟨1, "a", Collation.unknown, 0⟩] []
      ⟨[stampInv ⟨1, "a", Collation.unknown, 0⟩ 3], [], []⟩
      (by simp [invMonotone]) (by simp [stampInv])).2.2.2 ⟨1, "a", Collation.unknown, 0⟩

/-- C8: The per-table batch write is all-or-nothing: the usage table after
a run either holds the whole stamped batch or none of it; and when the
usage write fails mid-run after the inventory write committed, zero usage
rows of the batch are persisted, the run's state is FAILED, and the
inventory rows already committed by the same run remain. -/
theorem batch_write_all_or_nothing :
    ∀ (b : SinkBehavior) (run : PipelineRun) (invB : List InventoryData)
      (usgB : List UsageData) (s : Store),
      ((runPipeline b run invB usgB s).store.usage = s.usage ∨
        (runPipeline b run invB usgB s).store.usage =
          s.usage ++ usgB.map (fun d => stampUsg d run.execution_date)) ∧
      (b.inventoryWriteOk = true → b.usageWriteOk = false →
        (runPipeline b run invB usgB s).state = RunState.FAILED ∧
        (runPipeline b run invB usgB s).store.usage = s.usage ∧
        (runPipeline b run invB usgB s).store.inventory =
          s.inventory ++ invB.map (fun d => stampInv d run.execution_date)) := by
  intro b run invB usgB s
  obtain ⟨bi, bu⟩ := b
  cases bi <;> cases bu <;>
    simp only [runPipeline, insertInventoryBatch, insertUsageBatch,
      Bool.false_eq_true, if_false, if_true] <;>
    simp

/-- Witness for C8 at a concrete run whose usage write fails after the
inventory write committed. -/
theorem batch_write_all_or_nothing_witness :
    (runPipeline ⟨true, false⟩ ⟨"profiler", 5, "v1"⟩ [⟨1, "a", Collation.unknown, 0⟩]
        [⟨"h1", 1, 2, 10, 3, 4, 5⟩] ⟨[], [], []⟩).state = RunState.FAILED ∧
    (runPipeline ⟨true, false⟩ ⟨"profiler", 5, "v1"⟩ [⟨1, "a", Collation.unknown, 0⟩]
        [⟨"h1", 1, 2, 10, 3, 4, 5⟩] ⟨[], [], []⟩).store.usage = [] := by
  constructor
  · exact ((batch_write_all_or_nothing ⟨true, false⟩ ⟨"profiler", 5, "v1"⟩
      [⟨1, "a", Collation.unknown, 0⟩] [⟨"h1", 1, 2, 10, 3, 4, 5⟩] ⟨[], [], []⟩).2
      rfl rfl).1
  · exact ((batch_write_all_or_nothing ⟨true, false⟩ ⟨"profiler", 5, "v1"⟩
      [⟨1, "a", Collation.unknown, 0⟩] [⟨"h1", 1, 2, 10, 3, 4, 5⟩] ⟨[], [], []⟩).2
      rfl rfl).2.1

/-- C9: When any of an incoming usage record's four counters
(execution_count, total_worker_time, total_elapsed_time, total_rows) is
below the latest prior snapshot of the same sql_handle, the run still
succeeds (a regression is never an error), a CounterRegressionWarning
naming that counter and carrying both values is logged, the incoming
record is persisted verbatim (no clamping, no discarding) as a new
snapshot row, and the prior snapshot row is still present — both
lifetimes coexist in the table. -/
theorem counter_regression_warned_persisted_verbatim :
    ∀ (b : SinkBehavior) (run : PipelineRun) (s : Store) (d : UsageData) (p : UsageRow),
      b.inventoryWriteOk = true → b.usageWriteOk = true →
      latestSnapshot d.sql_handle s.usage = some p →
      (runPipeline b run [] [d] s).state = RunState.SUCCEEDED ∧
      (d.execution_count < p.data.execution_count →
        (⟨d.sql_handle, "execution_count", p.data.execution_count, d.execution_count⟩ :
            CounterRegressionWarning) ∈ (runPipeline b run [] [d] s).warnings) ∧
      (d.total_worker_time < p.data.total_worker_time →
        (⟨d.sql_handle, "total_worker_time", p.data.total_worker_time, d.total_worker_time⟩ :
            CounterRegressionWarning) ∈ (runPipeline b run [] [d] s).warnings) ∧
      (d.total_elapsed_time < p.data.total_elapsed_time →
        (⟨d.sql_handle, "total_elapsed_time", p.data.total_elapsed_time, d.total_elapsed_time⟩ :
            CounterRegressionWarning) ∈ (runPipeline b run [] [d] s).warnings) ∧
      (d.total_rows < p.data.total_rows →
        (⟨d.sql_handle, "total_rows", p.data.total_rows, d.total_rows⟩ :
            CounterRegressionWarning) ∈ (runPipeline b run [] [d] s).warnings) ∧
      (runPipeline b run [] [d] s).store.usage =
          s.usage ++ [stampUsg d run.execution_date] ∧
      p ∈ (runPipeline b run [] [d] s).store.usage := by
  intro b run s d p hbi hbu hls
  obtain ⟨bi, bu⟩ := b
  simp only at hbi hbu
  subst hbi hbu
  have hmem : p ∈ s.usage := latestSnapshot_mem d.sql_handle s.usage p hls
  refine ⟨rfl, ?_, ?_, ?_, ?_, rfl, ?_⟩
  · intro hlt
    show (⟨d.sql_handle, "execution_count", p.data.execution_count, d.execution_count⟩ :
        CounterRegressionWarning) ∈ detectRegressions s [d]
    simp [detectRegressions, counterRegressions, hls, hlt]
  · intro hlt
    show (⟨d.sql_handle, "total_worker_time", p.data.total_worker_time, d.total_worker_time⟩ :
        CounterRegressionWarning) ∈ detectRegressions s [d]
    simp [detectRegressions, counterRegressions, hls, hlt]
  · intro hlt
    show (⟨d.sql_handle, "total_elapsed_time", p.data.total_elapsed_time, d.total_elapsed_time⟩ :
        CounterRegressionWarning) ∈ detectRegressions s [d]
    simp [detectRegressions, counterRegressions, hls, hlt]
  · intro hlt
    show (⟨d.sql_handle, "total_rows", p.data.total_rows, d.total_rows⟩ :
        CounterRegressionWarning) ∈ detectRegressions s [d]
    simp [detectRegressions, counterRegressions, hls, hlt]
  · show p ∈ s.usage ++ [stampUsg d run.execution_date]
    exact List.mem_append_left _ hmem

/-- Witness for C9: between two snapshots of handle "h", execution_count
drops from 500 to 10 and total_rows from 9 to 3; both decreases are
warned with their values, and the prior snapshot row is still present
afterwards. -/
theorem counter_regression_warned_persisted_verbatim_witness :
    (⟨"h", "execution_count", 500, 10⟩ : CounterRegressionWarning) ∈
      (runPipeline ⟨true, true⟩ ⟨"profiler", 9, "v1"⟩ [] [⟨"h", 1, 8, 10, 7, 8, 3⟩]
        ⟨[], [stampUsg ⟨"h", 1, 2, 500, 7, 8, 9⟩ 3], []⟩).warnings ∧
    (⟨"h", "total_rows", 9, 3⟩ : CounterRegressionWarning) ∈
      (runPipeline ⟨true, true⟩ ⟨"profiler", 9, "v1"⟩ [] [⟨"h", 1, 8, 10, 7, 8, 3⟩]
        ⟨[], [stampUsg ⟨"h", 1, 2, 500, 7, 8, 9⟩ 3], []⟩).warnings ∧
    stampUsg ⟨"h", 1, 2, 500, 7, 8, 9⟩ 3 ∈
      (runPipeline ⟨true, true⟩ ⟨"profiler", 9, "v1"⟩ [] [⟨"h", 1, 8, 10, 7, 8, 3⟩]
        ⟨[], [stampUsg ⟨"h", 1, 2, 500, 7, 8, 9⟩ 3], []⟩).store.usage := by
  refine ⟨?_, ?_, ?_⟩
  · exact (counter_regression_warned_persisted_verbatim ⟨true, true⟩ ⟨"profiler", 9, "v1"⟩
      ⟨[], [stampUsg ⟨"h", 1, 2, 500, 7, 8, 9⟩ 3], []⟩ ⟨"h", 1, 8, 10, 7, 8, 3⟩
      (stampUsg ⟨"h", 1, 2, 500, 7, 8, 9⟩ 3) rfl rfl (by decide)).2.1 (by decide)
  · exact (counter_regression_warned_persisted_verbatim ⟨true, true⟩ ⟨"profiler", 9, "v1"⟩
      ⟨[], [stampUsg ⟨"h", 1, 2, 500, 7, 8, 9⟩ 3], []⟩ ⟨"h", 1, 8, 10, 7, 8, 3⟩
      (stampUsg ⟨"h", 1, 2, 500, 7, 8, 9⟩ 3) rfl rfl (by decide)).2.2.2.2.1 (by decide)
  · exact (counter_regression_warned_persisted_verbatim ⟨true, true⟩ ⟨"profiler", 9, "v1"⟩
      ⟨[], [stampUsg ⟨"h", 1, 2, 500, 7, 8, 9⟩ 3], []⟩ ⟨"h", 1, 8, 10, 7, 8, 3⟩
      (stampUsg ⟨"h", 1, 2, 500, 7, 8, 9⟩ 3) rfl rfl (by decide)).2.2.2.2.2.2

end Lakebridge
